import Mathlib

set_option maxRecDepth 10000

/-!
Verification of the axio I/O substrate: a shallow embedding of the
`PollSet` wait/wake registry (`src/poll.rs`), the `BufWriter` buffered
writer (`src/buffered/writer.rs`), the `Buf`/`BufMut` transfer loop
(`src/buf.rs`) and the slice `read_exact` implementation (`src/impls.rs`),
together with theorems settling the specified properties.

Wakers are modelled as natural-number identities: `Waker::clone` preserves
the identity and `Waker::will_wake` is identity equality.  The spin mutex
around `Inner` is modelled away: all claims concern sequential call
sequences, and each public operation holds the lock for its whole body.
-/

namespace Axio

/-! ### PollSet (src/poll.rs) -/

/-- `POLL_SET_CAPACITY` from src/poll.rs. -/
def POLL_SET_CAPACITY : Nat := 64

/-- The `Inner` registry: `entries` models the `[MaybeUninit<Waker>; 64]`
array (`some w` = a slot holding a live waker with identity `w`, `none` =
uninitialized), `cursor` the wrapping registration counter. -/
structure Inner where
  entries : List (Option Nat)
  cursor : Nat
deriving Repr, DecidableEq

/-- `Inner::new`: all slots uninitialized, cursor 0. -/
def Inner.new : Inner :=
  ⟨List.replicate POLL_SET_CAPACITY none, 0⟩

/-- `Inner::len`. -/
def Inner.len (s : Inner) : Nat :=
  min s.cursor POLL_SET_CAPACITY

/-- `Inner::is_empty`. -/
def Inner.isEmpty (s : Inner) : Bool :=
  s.cursor == 0

/-- `Inner::register`: returns the new state together with the list of
waker identities woken during the call (the eviction wake, if any).
Mirrors src/poll.rs lines 65–75: the old occupant is read and woken
unless `will_wake` holds (identity equality), then the slot is
overwritten and the cursor advances modulo `2 * 64`. -/
def Inner.register (s : Inner) (w : Nat) : Inner × List Nat :=
  let slot := s.cursor % POLL_SET_CAPACITY
  let evicted : List Nat :=
    if POLL_SET_CAPACITY ≤ s.cursor then
      match s.entries.getD slot none with
      | some old => if old = w then [] else [old]
      | none => []
    else []
  (⟨s.entries.set slot (some w), (s.cursor + 1) % (POLL_SET_CAPACITY * 2)⟩, evicted)

/-- The wake invocations performed by `impl Drop for Inner`
(src/poll.rs lines 78–85): slots `0 .. min cursor 64` are read and woken
in order. -/
def Inner.dropWakes (s : Inner) : List Nat :=
  (s.entries.take (min s.cursor POLL_SET_CAPACITY)).filterMap id

/-- `PollSet::wake` (src/poll.rs lines 105–113): if the registry is empty
return 0 immediately; otherwise replace the inner structure with a fresh
one and let the detached structure's destructor wake every live slot.
Returns (new state, returned count, wakers woken). -/
def Inner.wakeOp (s : Inner) : Inner × Nat × List Nat :=
  if s.cursor = 0 then (s, 0, [])
  else (Inner.new, s.len, s.dropWakes)

/-- Register a whole list of wakers in order, accumulating the eviction
wakes emitted along the way. -/
def regAll (s : Inner) (ws : List Nat) : Inner × List Nat :=
  match ws with
  | [] => (s, [])
  | w :: rest =>
    let p := s.register w
    let q := regAll p.1 rest
    (q.1, p.2 ++ q.2)

/-- The state of the registry after registering the wakers `pre` in order
(with `pre.length ≤ 64`) on a fresh `Inner`: a fully written live region
`pre` followed by uninitialized slots, cursor at `pre.length`. -/
def padState (pre : List Nat) : Inner :=
  ⟨pre.map some ++ List.replicate (POLL_SET_CAPACITY - pre.length) none, pre.length⟩

lemma padState_nil : padState [] = Inner.new := rfl

lemma register_pad (pre : List Nat) (w : Nat) (h : pre.length < 64) :
    (padState pre).register w = (padState (pre ++ [w]), []) := by
  unfold padState Inner.register POLL_SET_CAPACITY
  simp only [Nat.mod_eq_of_lt h, Nat.not_le.mpr h, if_neg (Nat.not_le.mpr h)]
  refine Prod.ext ?_ rfl
  simp only [Inner.mk.injEq]
  constructor
  · rw [List.set_append]
    simp only [List.length_map, Nat.lt_irrefl, if_neg (lt_irrefl _), Nat.sub_self]
    have hrep : (64 : Nat) - pre.length = (64 - pre.length - 1) + 1 := by omega
    rw [hrep, List.replicate_succ]
    simp [List.map_append]
    omega
  · simp only [List.length_append, List.length_map, List.length_cons, List.length_nil]
    omega

lemma regAll_pad (ws : List Nat) : ∀ pre : List Nat, pre.length + ws.length ≤ 64 →
    regAll (padState pre) ws = (padState (pre ++ ws), []) := by
  induction ws with
  | nil => intro pre _; simp [regAll]
  | cons w rest ih =>
    intro pre h
    have hlt : pre.length < 64 := by simp at h; omega
    unfold regAll
    rw [register_pad pre w hlt]
    have := ih (pre ++ [w]) (by simp at h ⊢; omega)
    simp only [this]
    simp

lemma dropWakes_pad (ws : List Nat) (h : ws.length ≤ 64) :
    (padState ws).dropWakes = ws := by
  unfold padState Inner.dropWakes POLL_SET_CAPACITY
  simp only [min_eq_left h]
  rw [show ws.length = (ws.map some).length by simp, List.take_left]
  simp [List.filterMap_map]

lemma wakeOp_cursor_zero (s : Inner) (h : s.cursor = 0) : s.wakeOp = (s, 0, []) := by
  unfold Inner.wakeOp
  simp [h]

lemma wakeOp_pad (ws : List Nat) (h : ws.length ≤ 64) (hne : ws ≠ []) :
    (padState ws).wakeOp = (Inner.new, ws.length, ws) := by
  unfold Inner.wakeOp
  have hc : (padState ws).cursor = ws.length := rfl
  have hlen : (padState ws).len = ws.length := by
    unfold Inner.len POLL_SET_CAPACITY
    rw [hc]; omega
  rw [hc, hlen, dropWakes_pad ws h]
  simp [List.length_eq_zero, hne]

/-- Registering at most 64 distinct wakers on a fresh registry emits no
eviction wakes, and `wake` then drains them all in order. -/
lemma fresh_reg_wake (ws : List Nat) (hnd : ws.Nodup) (hle : ws.length ≤ 64) :
    (regAll Inner.new ws).2 = [] ∧
    ((regAll Inner.new ws).1.wakeOp).2.1 = ws.length ∧
    ((regAll Inner.new ws).1.wakeOp).2.2 = ws ∧
    (∀ w ∈ ws, (((regAll Inner.new ws).1.wakeOp).2.2).count w = 1) ∧
    (((regAll Inner.new ws).1.wakeOp).1.wakeOp).2.1 = 0 ∧
    (((regAll Inner.new ws).1.wakeOp).1.wakeOp).2.2 = [] := by
  have hreg : regAll Inner.new ws = (padState ws, []) := by
    rw [← padState_nil]
    exact regAll_pad ws [] (by simpa using hle)
  rcases eq_or_ne ws [] with rfl | hne
  · simp [hreg, padState_nil, wakeOp_cursor_zero Inner.new rfl]
  · rw [hreg]
    simp only [wakeOp_pad ws hle hne]
    refine ⟨trivial, trivial, trivial, ?_, ?_, ?_⟩
    · intro w hw; exact List.count_eq_one_of_mem hnd hw
    · simp [wakeOp_cursor_zero Inner.new rfl]
    · simp [wakeOp_cursor_zero Inner.new rfl]

lemma getD_ne_imp_lt (l : List (Option Nat)) (i : Nat) (h : l.getD i none ≠ none) :
    i < l.length := by
  by_contra hc
  push_neg at hc
  simp [List.getD, List.getElem?_eq_none (by omega : l.length ≤ i)] at h

/-- A register whose cursor has reached the capacity window wakes the
slot's stale occupant unless it will-wake the incoming waker, and in all
cases installs the incoming waker in the slot. -/
lemma register_evicts_stale (s : Inner) (w old : Nat) (hc : 64 ≤ s.cursor)
    (hold : s.entries.getD (s.cursor % 64) none = some old) :
    ((s.register w).2 = if old = w then [] else [old]) ∧
    (s.register w).1.entries.getD (s.cursor % 64) none = some w := by
  have hlt : s.cursor % 64 < s.entries.length :=
    getD_ne_imp_lt _ _ (by rw [hold]; exact Option.some_ne_none old)
  constructor
  · unfold Inner.register POLL_SET_CAPACITY
    rw [List.getD_eq_getElem?_getD] at hold
    simp [hc, hold]
  · unfold Inner.register POLL_SET_CAPACITY
    simp [List.getD, List.getElem?_set_self', List.getElem?_eq_getElem, hlt]

lemma count_filterMap_id (l : List (Option Nat)) (w : Nat) :
    (l.filterMap id).count w = l.count (some w) := by
  induction l with
  | nil => rfl
  | cons a t ih =>
    cases a with
    | none => simpa [List.count_cons] using ih
    | some x =>
      simp [List.count_cons, ih]

lemma count_set_le (l : List (Option Nat)) (i : Nat) (v x : Option Nat) :
    (l.set i v).count x ≤ l.count x + 1 := by
  induction l generalizing i with
  | nil => simp
  | cons a t ih =>
    cases i with
    | zero =>
      simp only [List.set_cons_zero, List.count_cons]
      by_cases hv : v = x <;> by_cases ha : a = x
      all_goals simp [hv, ha]
      all_goals omega
    | succ i =>
      simp only [List.set_cons_succ, List.count_cons]
      have := ih i
      omega

/-- An eviction during `register` never wakes the incoming waker itself
(the `will_wake` identity check skips it). -/
lemma register_no_self_wake (s : Inner) (w : Nat) : (s.register w).2.count w = 0 := by
  unfold Inner.register
  simp only
  split
  · cases hg : s.entries.getD (s.cursor % POLL_SET_CAPACITY) none with
    | none => simp [hg]
    | some old =>
      simp only [hg]
      split
      · simp
      · next hne => simp [List.count_cons, hne]
  · simp

/-- All waker invocations of the scenario "register `w`, register `w`
again, then `wake`", starting from state `s`. -/
def dedupLog (s : Inner) (w : Nat) : List Nat :=
  let p := s.register w
  let q := p.1.register w
  let r := q.1.wakeOp
  p.2 ++ q.2 ++ r.2.2

/-- Registering the same waker twice in succession and then waking
invokes that waker at most twice in total. -/
lemma dedup_wake_bound (s : Inner) (w : Nat) (hnot : (some w) ∉ s.entries) :
    (dedupLog s w).count w ≤ 2 := by
  unfold dedupLog
  simp only [List.count_append]
  have h1 : (s.register w).2.count w = 0 := register_no_self_wake s w
  have h2 : ((s.register w).1.register w).2.count w = 0 := register_no_self_wake _ w
  have h0 : s.entries.count (some w) = 0 := List.count_eq_zero.mpr hnot
  have hting : ((s.register w).1.register w).1.entries.count (some w) ≤ 2 := by
    unfold Inner.register
    simp only
    calc ((s.entries.set (s.cursor % POLL_SET_CAPACITY) (some w)).set _ (some w)).count (some w)
        ≤ (s.entries.set (s.cursor % POLL_SET_CAPACITY) (some w)).count (some w) + 1 :=
          count_set_le _ _ _ _
      _ ≤ s.entries.count (some w) + 1 + 1 := by
          have := count_set_le s.entries (s.cursor % POLL_SET_CAPACITY) (some w) (some w)
          omega
      _ = 2 := by omega
  have h3 : (((s.register w).1.register w).1.wakeOp).2.2.count w ≤ 2 := by
    set q := ((s.register w).1.register w).1 with hq
    unfold Inner.wakeOp
    split
    · simp
    · simp only [Inner.dropWakes]
      rw [count_filterMap_id]
      calc (q.entries.take (min q.cursor POLL_SET_CAPACITY)).count (some w)
          ≤ q.entries.count (some w) := (List.take_sublist _ _).count_le (some w)
        _ ≤ 2 := hting
  omega

/-- C1: FALSE OF THE CODE (code bug).  Registering 129 distinct wakers
(identities 0..128) on a fresh `PollSet` and then dropping it invokes
only the wakers 0..63 (each evicted during registrations 64..127) and
waker 128 (by the destructor).  The 64 wakers 64..127 — registered and
never woken by an eviction — are overwritten without a wake (waker 64,
at the 129th registration, after the cursor wrapped modulo 128) or left
in slots the destructor never reads (wakers 65..127, because the final
cursor is 1), contradicting the invariant that every registered waker is
invoked before the set is discarded, and contradicting the destructor
comment "Ensure all entries are dropped". -/
theorem c1_registered_waker_never_woken :
    (let p := regAll Inner.new (List.range 129)
     let q := p.1.wakeOp
     p.2 ++ q.2.2 = List.range 64 ++ [128]) ∧
    64 ∈ List.range 129 ∧ 64 ∉ (List.range 64 ++ [128]) := by
  decide

/-- C2 counterexample: with K = 65 distinct wakers registered on a fresh
`PollSet`, `wake` returns 64, not K, and waker 0 is not invoked by the
`wake` call (it was already woken by an eviction during registration 64),
refuting the claim's "for every K". -/
theorem c2_counterexample_k65 :
    ((regAll Inner.new (List.range 65)).1.wakeOp).2.1 = 64 ∧ (64 : Nat) ≠ 65 ∧
    (0 : Nat) ∈ List.range 65 ∧
    (0 : Nat) ∉ ((regAll Inner.new (List.range 65)).1.wakeOp).2.2 := by
  decide

/-- C2 amended: for every K ≤ 64 (the poll-set capacity), registering K
distinct wakers on a fresh `PollSet` emits no wake during registration,
and `wake()` then invokes each of the K wakers exactly once and returns
K; a second `wake()` with no intervening registration invokes no waker
and returns 0. -/
theorem c2_bounded_no_lost_wakeup (ws : List Nat) (hnd : ws.Nodup)
    (hle : ws.length ≤ 64) :
    (regAll Inner.new ws).2 = [] ∧
    ((regAll Inner.new ws).1.wakeOp).2.1 = ws.length ∧
    ((regAll Inner.new ws).1.wakeOp).2.2 = ws ∧
    (∀ w ∈ ws, (((regAll Inner.new ws).1.wakeOp).2.2).count w = 1) ∧
    (((regAll Inner.new ws).1.wakeOp).1.wakeOp).2.1 = 0 ∧
    (((regAll Inner.new ws).1.wakeOp).1.wakeOp).2.2 = [] :=
  fresh_reg_wake ws hnd hle

/-- Witness for `c2_bounded_no_lost_wakeup` at the concrete waker list
[3, 1, 2]. -/
theorem c2_bounded_no_lost_wakeup_witness :
    ([3, 1, 2] : List Nat).Nodup ∧ ([3, 1, 2] : List Nat).length ≤ 64 ∧
    ((regAll Inner.new [3, 1, 2]).2 = [] ∧
     ((regAll Inner.new [3, 1, 2]).1.wakeOp).2.1 = ([3, 1, 2] : List Nat).length ∧
     ((regAll Inner.new [3, 1, 2]).1.wakeOp).2.2 = [3, 1, 2] ∧
     (∀ w ∈ ([3, 1, 2] : List Nat),
       (((regAll Inner.new [3, 1, 2]).1.wakeOp).2.2).count w = 1) ∧
     (((regAll Inner.new [3, 1, 2]).1.wakeOp).1.wakeOp).2.1 = 0 ∧
     (((regAll Inner.new [3, 1, 2]).1.wakeOp).1.wakeOp).2.2 = []) :=
  ⟨by decide, by decide, c2_bounded_no_lost_wakeup [3, 1, 2] (by decide) (by decide)⟩

/-- C3 counterexample: after 128 registrations (identities 0..127) on a
fresh `PollSet`, the cursor has wrapped to 0; slot 0 holds the live,
never-woken waker 64, registered exactly 64 registrations earlier, yet
the 129th registration (waker 128, not will-wake-equivalent to 64)
emits no wake at all — the stale entry is silently overwritten, refuting
the claim for this state. -/
theorem c3_counterexample_wrap :
    (let s := (regAll Inner.new (List.range 128)).1
     s.cursor = 0 ∧ s.entries.getD 0 none = some 64 ∧
     (64 : Nat) ∉ (regAll Inner.new (List.range 128)).2 ∧
     (64 : Nat) ≠ 128 ∧ (s.register 128).2 = []) := by
  decide

/-- C3 amended: restricted to states whose cursor has not wrapped its
2·64 window (cursor ≥ 64 — which, within the first 128 registrations
since the registry was last drained, is exactly when the landing slot
holds a live, not-yet-woken entry 64 registrations old), the stale
occupant of the landing slot is woken during `register` unless it
will-wakes the incoming waker, in which case it is discarded without a
wake; and registering the same waker twice in succession from any state
not already holding it, then calling `wake`, invokes that waker at most
twice (at most one extra wake). -/
theorem c3_eviction_and_dedup :
    (∀ (s : Inner) (w old : Nat), 64 ≤ s.cursor →
      s.entries.getD (s.cursor % 64) none = some old →
      ((s.register w).2 = if old = w then [] else [old]) ∧
      (s.register w).1.entries.getD (s.cursor % 64) none = some w) ∧
    (∀ (s : Inner) (w : Nat), (some w) ∉ s.entries →
      (dedupLog s w).count w ≤ 2) :=
  ⟨fun s w old hc hold => register_evicts_stale s w old hc hold,
   fun s w hnot => dedup_wake_bound s w hnot⟩

/-- Witness for `c3_eviction_and_dedup`: the full state reached by
registering 0..63, where the next register (waker 99) evicts and wakes
the stale waker 0; and the dedup bound at the same state. -/
theorem c3_eviction_and_dedup_witness :
    (64 ≤ (padState (List.range 64)).cursor ∧
     (padState (List.range 64)).entries.getD
       ((padState (List.range 64)).cursor % 64) none = some 0 ∧
     some 99 ∉ (padState (List.range 64)).entries) ∧
    (((padState (List.range 64)).register 99).2 = if 0 = 99 then [] else [0]) ∧
    ((padState (List.range 64)).register 99).1.entries.getD
      ((padState (List.range 64)).cursor % 64) none = some 99 ∧
    (dedupLog (padState (List.range 64)) 99).count 99 ≤ 2 := by
  refine ⟨⟨by decide, by decide, by decide⟩, ?_, ?_, ?_⟩
  · exact (c3_eviction_and_dedup.1 (padState (List.range 64)) 99 0
      (by decide) (by decide)).1
  · exact (c3_eviction_and_dedup.1 (padState (List.range 64)) 99 0
      (by decide) (by decide)).2
  · exact c3_eviction_and_dedup.2 (padState (List.range 64)) 99 (by decide)

/-! ### BufWriter (src/buffered/writer.rs) -/

/-- `DEFAULT_BUF_SIZE` from src/buffered/mod.rs. -/
def DEFAULT_BUF_SIZE : Nat := 1024

/-- Behaviour of a downstream sink (the `Write` bound `W` of
`BufWriter<W>`): `write_all` and `flush` may mutate the sink state and
may fail.  `write_all` returning `ok` means every byte was accepted. -/
structure WSpec (σ ε : Type) where
  write_all : σ → List Nat → σ × Except ε Unit
  flushSink : σ → σ × Except ε Unit

/-- `BufWriter<W>`: the sink, the initialized-prefix length `pos`, and
the fixed 1024-byte region (`MaybeUninit` bytes modelled as a plain list
whose suffix past `pos` is never read). -/
structure BufWriter (σ : Type) where
  inner : σ
  pos : Nat
  buf : List Nat

/-- Overwrite `xs.length` bytes of `l` starting at index `i`
(`copy_from_slice` into `buf[i..i+xs.length]`). -/
def setRange (l : List Nat) (i : Nat) (xs : List Nat) : List Nat :=
  l.take i ++ xs ++ l.drop (i + xs.length)

/-- `BufWriter::spare_capacity`. -/
def BufWriter.spare_capacity (w : BufWriter σ) : Nat :=
  DEFAULT_BUF_SIZE - w.pos

/-- The bytes currently buffered (`BufWriter::buffer`), i.e. the
initialized prefix `buf[..pos]`. -/
def BufWriter.pending (w : BufWriter σ) : List Nat :=
  w.buf.take w.pos

/-- `BufWriter::flush_buf` (src/buffered/writer.rs lines 87–94): when
`pos > 0`, submit `buf[..pos]` downstream with `write_all`; reset
`pos = 0` only on success. -/
def flush_buf (W : WSpec σ ε) (w : BufWriter σ) : BufWriter σ × Except ε Unit :=
  if 0 < w.pos then
    match W.write_all w.inner (w.buf.take w.pos) with
    | (i2, Except.error e) => ({ w with inner := i2 }, Except.error e)
    | (i2, Except.ok _) => ({ w with inner := i2, pos := 0 }, Except.ok ())
  else (w, Except.ok ())

/-- `Write::write` for `BufWriter` (src/buffered/writer.rs lines 64–76):
flush first if the slice exceeds spare capacity, then copy
`min (b.length) spare` bytes at `pos`. -/
def write (W : WSpec σ ε) (w : BufWriter σ) (b : List Nat) :
    BufWriter σ × Except ε Nat :=
  match (if w.spare_capacity < b.length then flush_buf W w else (w, Except.ok ())) with
  | (w2, Except.error e) => (w2, Except.error e)
  | (w2, Except.ok _) =>
    let written := min b.length w2.spare_capacity
    ({ w2 with pos := w2.pos + written, buf := setRange w2.buf w2.pos (b.take written) },
     Except.ok written)

/-- `Write::flush` for `BufWriter` (src/buffered/writer.rs lines 79–82). -/
def flush (W : WSpec σ ε) (w : BufWriter σ) : BufWriter σ × Except ε Unit :=
  match flush_buf W w with
  | (w2, Except.error e) => (w2, Except.error e)
  | (w2, Except.ok _) =>
    let p := W.flushSink w2.inner
    ({ w2 with inner := p.1 }, p.2)

/-- `BufWrite::skip_some` (src/buffered/writer.rs lines 97–105). -/
def skip_some (W : WSpec σ ε) (w : BufWriter σ) (len : Nat) :
    BufWriter σ × Except ε Unit :=
  if w.spare_capacity < len then
    match flush_buf W w with
    | (w2, Except.error e) => (w2, Except.error e)
    | (w2, Except.ok _) =>
      ({ w2 with pos := w2.pos + min len w2.spare_capacity }, Except.ok ())
  else ({ w with pos := w.pos + min len w.spare_capacity }, Except.ok ())

/-- `BufWriter::into_inner` (src/buffered/writer.rs lines 54–59): wrap
in `ManuallyDrop` (suppressing the destructor's flush), run `flush_buf`
once, and move the sink out on success. -/
def into_inner (W : WSpec σ ε) (w : BufWriter σ) : Except ε σ :=
  match flush_buf W w with
  | (_, Except.error e) => Except.error e
  | (w2, Except.ok _) => Except.ok w2.inner

/-- `BufWriter::new`: `pos = 0` over an uninitialized region (the byte 0
stands for arbitrary uninitialized contents, never read before being
overwritten). -/
def newBufWriter (inner : σ) : BufWriter σ :=
  { inner := inner, pos := 0, buf := List.replicate DEFAULT_BUF_SIZE 0 }

/-- A recording sink that always succeeds: state = (bytes received so
far, number of `write_all` calls made). -/
def okSpec : WSpec (List Nat × Nat) Unit where
  write_all := fun s b => ((s.1 ++ b, s.2 + 1), Except.ok ())
  flushSink := fun s => (s, Except.ok ())

/-- A sink whose `write_all` always fails (after mutating its own
state, modelling a partial downstream write). -/
def errSpec : WSpec Nat Unit where
  write_all := fun s _ => (s + 1, Except.error ())
  flushSink := fun s => (s, Except.ok ())

/-- Submit a list of chunks through successive `write` calls,
propagating the first error. -/
def writeChunks (W : WSpec σ ε) (w : BufWriter σ) (cs : List (List Nat)) :
    BufWriter σ × Except ε Unit :=
  match cs with
  | [] => (w, Except.ok ())
  | c :: rest =>
    match write W w c with
    | (w2, Except.error e) => (w2, Except.error e)
    | (w2, Except.ok _) => writeChunks W w2 rest

/-- Concatenation of a chunk list: the full byte stream it carries. -/
def flat (cs : List (List Nat)) : List Nat :=
  cs.foldr (fun a b => a ++ b) []

lemma flat_cons (c : List Nat) (cs : List (List Nat)) : flat (c :: cs) = c ++ flat cs := rfl

/-- A full run: chunks written to a fresh `BufWriter` over a fresh
recording sink. -/
def runChunks (cs : List (List Nat)) : BufWriter (List Nat × Nat) × Except Unit Unit :=
  writeChunks okSpec (newBufWriter ([], 0)) cs

lemma setRange_length (l : List Nat) (i : Nat) (xs : List Nat) (h : i + xs.length ≤ l.length) :
    (setRange l i xs).length = l.length := by
  unfold setRange
  simp only [List.length_append, List.length_take, List.length_drop]
  omega

lemma setRange_take (l : List Nat) (i : Nat) (xs : List Nat) (h : i ≤ l.length) :
    (setRange l i xs).take (i + xs.length) = l.take i ++ xs := by
  unfold setRange
  rw [show l.take i ++ xs ++ l.drop (i + xs.length)
      = (l.take i ++ xs) ++ l.drop (i + xs.length) by rw [List.append_assoc]]
  exact List.take_left' (by simp [List.length_take]; omega)

/-- `write` when the chunk fits in spare capacity: no flush, bytes
appended at `pos`. -/
lemma write_nofl (w : BufWriter (List Nat × Nat)) (c : List Nat)
    (hc : c.length ≤ DEFAULT_BUF_SIZE - w.pos) :
    write okSpec w c =
      ({ inner := w.inner, pos := w.pos + c.length, buf := setRange w.buf w.pos c },
       Except.ok c.length) := by
  have hsp : ¬ (BufWriter.spare_capacity w < c.length) := by
    unfold BufWriter.spare_capacity; omega
  unfold write
  simp only [if_neg hsp]
  have hwr : min c.length w.spare_capacity = c.length := by
    unfold BufWriter.spare_capacity at *; omega
  simp [hwr]

/-- `write` when the chunk overflows spare capacity (and fits in the
whole buffer): flush downstream, then copy at position 0. -/
lemma write_fl (w : BufWriter (List Nat × Nat)) (c : List Nat)
    (hsp : DEFAULT_BUF_SIZE - w.pos < c.length) (hz : 0 < w.pos)
    (hc : c.length ≤ DEFAULT_BUF_SIZE) :
    write okSpec w c =
      ({ inner := (w.inner.1 ++ w.buf.take w.pos, w.inner.2 + 1),
         pos := c.length, buf := setRange w.buf 0 c },
       Except.ok c.length) := by
  have hsp2 : BufWriter.spare_capacity w < c.length := hsp
  unfold write flush_buf
  simp only [if_pos hsp2, if_pos hz, okSpec]
  simp [BufWriter.spare_capacity, min_eq_left hc, hc]

/-- The buffering invariant for a `BufWriter` over the recording sink:
`bytes` is the full stream written so far.  Every flush submitted at
most 1024 bytes and at least one; flushes only happen once the stream
exceeded the capacity. -/
def Inv (bytes : List Nat) (w : BufWriter (List Nat × Nat)) : Prop :=
  w.pos ≤ DEFAULT_BUF_SIZE ∧
  w.buf.length = DEFAULT_BUF_SIZE ∧
  w.inner.1 ++ w.buf.take w.pos = bytes ∧
  w.inner.1.length ≤ DEFAULT_BUF_SIZE * w.inner.2 ∧
  w.inner.2 ≤ w.inner.1.length ∧
  (1 ≤ w.inner.2 → DEFAULT_BUF_SIZE < bytes.length)

lemma Inv_new : Inv [] (newBufWriter ([], 0)) := by
  unfold Inv newBufWriter
  simp

lemma write_step (bytes : List Nat) (w : BufWriter (List Nat × Nat)) (c : List Nat)
    (hc : c.length ≤ DEFAULT_BUF_SIZE) (hInv : Inv bytes w) :
    (write okSpec w c).2 = Except.ok c.length ∧ Inv (bytes ++ c) (write okSpec w c).1 := by
  obtain ⟨hpos, hbuf, hcontent, hkb, hkr, hfl⟩ := hInv
  by_cases hsp : DEFAULT_BUF_SIZE - w.pos < c.length
  · have hz : 0 < w.pos := by unfold DEFAULT_BUF_SIZE at *; omega
    rw [write_fl w c hsp hz hc]
    refine ⟨rfl, ?_, ?_, ?_, ?_, ?_, ?_⟩
    · simpa using hc
    · show (setRange w.buf 0 c).length = DEFAULT_BUF_SIZE
      rw [setRange_length w.buf 0 c (by omega)]
      exact hbuf
    · show (w.inner.1 ++ w.buf.take w.pos) ++ (setRange w.buf 0 c).take c.length = bytes ++ c
      have := setRange_take w.buf 0 c (by omega)
      simp only [Nat.zero_add, List.take_zero, List.nil_append] at this
      rw [this, hcontent]
    · show (w.inner.1 ++ w.buf.take w.pos).length ≤ DEFAULT_BUF_SIZE * (w.inner.2 + 1)
      simp only [List.length_append, List.length_take]
      unfold DEFAULT_BUF_SIZE at *
      have : min w.pos w.buf.length ≤ 1024 := by omega
      nlinarith [hkb]
    · show w.inner.2 + 1 ≤ (w.inner.1 ++ w.buf.take w.pos).length
      simp only [List.length_append, List.length_take]
      omega
    · intro _
      show DEFAULT_BUF_SIZE < (bytes ++ c).length
      simp only [List.length_append]
      have hb : w.pos ≤ bytes.length := by
        rw [← hcontent]; simp only [List.length_append, List.length_take]; omega
      unfold DEFAULT_BUF_SIZE at *
      omega
  · rw [write_nofl w c (by omega)]
    refine ⟨rfl, ?_, ?_, ?_, ?_, ?_, ?_⟩
    · simp only; unfold DEFAULT_BUF_SIZE at *; omega
    · show (setRange w.buf w.pos c).length = DEFAULT_BUF_SIZE
      rw [setRange_length w.buf w.pos c (by omega)]
      exact hbuf
    · show w.inner.1 ++ (setRange w.buf w.pos c).take (w.pos + c.length) = bytes ++ c
      rw [setRange_take w.buf w.pos c (by omega), ← hcontent]
      simp
    · exact hkb
    · exact hkr
    · intro hk
      have := hfl hk
      simp only [List.length_append]
      omega

lemma writeChunks_inv (cs : List (List Nat)) :
    ∀ (bytes : List Nat) (w : BufWriter (List Nat × Nat)),
    (∀ c ∈ cs, c.length ≤ DEFAULT_BUF_SIZE) → Inv bytes w →
    (writeChunks okSpec w cs).2 = Except.ok () ∧
    Inv (bytes ++ flat cs) (writeChunks okSpec w cs).1 := by
  induction cs with
  | nil =>
    intro bytes w _ hInv
    simpa [writeChunks, flat] using hInv
  | cons c rest ih =>
    intro bytes w hlen hInv
    have hc : c.length ≤ DEFAULT_BUF_SIZE := hlen c (by simp)
    obtain ⟨hok, hInv2⟩ := write_step bytes w c hc hInv
    unfold writeChunks
    rcases hw : write okSpec w c with ⟨w2, r⟩
    rw [hw] at hok hInv2
    simp only at hok hInv2
    subst hok
    simp only
    have := ih (bytes ++ c) w2 (fun d hd => hlen d (by simp [hd])) hInv2
    rw [flat_cons, ← List.append_assoc]
    exact this

lemma runChunks_inv (cs : List (List Nat)) (h : ∀ c ∈ cs, c.length ≤ DEFAULT_BUF_SIZE) :
    (runChunks cs).2 = Except.ok () ∧ Inv (flat cs) (runChunks cs).1 := by
  have := writeChunks_inv cs [] (newBufWriter ([], 0)) h Inv_new
  simpa [runChunks] using this

lemma runChunks_flush_lb (cs : List (List Nat))
    (h : ∀ c ∈ cs, c.length ≤ DEFAULT_BUF_SIZE) :
    ((flat cs).length - 1) / DEFAULT_BUF_SIZE ≤ (runChunks cs).1.inner.2 := by
  obtain ⟨-, hpos, hbuf, hcontent, hkb, hkr, hfl⟩ := runChunks_inv cs h
  set w := (runChunks cs).1
  have hL : (flat cs).length = w.inner.1.length + (w.buf.take w.pos).length := by
    rw [← hcontent]; simp
  have hlt : (flat cs).length - 1 < (w.inner.2 + 1) * DEFAULT_BUF_SIZE := by
    simp only [List.length_take] at hL
    unfold DEFAULT_BUF_SIZE at *
    omega
  have := (Nat.div_lt_iff_lt_mul (show 0 < DEFAULT_BUF_SIZE by decide)).mpr hlt
  omega

lemma runChunks_zero (cs : List (List Nat)) (h : ∀ c ∈ cs, c.length ≤ DEFAULT_BUF_SIZE)
    (hz : (flat cs).length = 0) : (runChunks cs).1.inner.2 = 0 := by
  obtain ⟨-, hpos, hbuf, hcontent, hkb, hkr, hfl⟩ := runChunks_inv cs h
  have hrec : (runChunks cs).1.inner.1.length = 0 := by
    have : (runChunks cs).1.inner.1.length ≤ (flat cs).length := by
      rw [← hcontent]; simp
    omega
  omega

/-- A run of m full-capacity chunks starting from a full buffer adds one
flush per chunk. -/
lemma full_chunks_from_full (m : Nat) :
    ∀ (w : BufWriter (List Nat × Nat)), w.pos = DEFAULT_BUF_SIZE →
    w.buf.length = DEFAULT_BUF_SIZE →
    (writeChunks okSpec w (List.replicate m (List.replicate DEFAULT_BUF_SIZE 0))).1.inner.2
      = w.inner.2 + m ∧
    (writeChunks okSpec w (List.replicate m (List.replicate DEFAULT_BUF_SIZE 0))).2
      = Except.ok () := by
  induction m with
  | zero => intro w _ _; simp [writeChunks]
  | succ m ih =>
    intro w hp hb
    rw [List.replicate_succ]
    unfold writeChunks
    have hw := write_fl w (List.replicate DEFAULT_BUF_SIZE 0)
      (by simp [hp]; decide) (by rw [hp]; decide) (by simp)
    rw [hw]
    simp only
    have hlen2 : (setRange w.buf 0 (List.replicate DEFAULT_BUF_SIZE 0)).length
        = DEFAULT_BUF_SIZE := by
      rw [setRange_length _ _ _ (by simp [hb])]
      exact hb
    have := ih ({ inner := (w.inner.1 ++ w.buf.take w.pos, w.inner.2 + 1),
                  pos := (List.replicate DEFAULT_BUF_SIZE (0:Nat)).length,
                  buf := setRange w.buf 0 (List.replicate DEFAULT_BUF_SIZE 0) })
      (by simp) hlen2
    constructor
    · rw [this.1]; simp; omega
    · exact this.2

/-- Exactness of the flush-count formula for full-capacity chunkings. -/
lemma full_chunks_exact (m : Nat) :
    (runChunks (List.replicate m (List.replicate DEFAULT_BUF_SIZE 0))).1.inner.2 = m - 1 := by
  cases m with
  | zero => simp [runChunks, writeChunks, newBufWriter]
  | succ m =>
    unfold runChunks
    rw [List.replicate_succ]
    unfold writeChunks
    rw [write_nofl (newBufWriter (([], 0) : List Nat × Nat))
      (List.replicate DEFAULT_BUF_SIZE 0) (by simp [newBufWriter])]
    simp only
    obtain ⟨h1, -⟩ := full_chunks_from_full m
      { inner := (newBufWriter (([], 0) : List Nat × Nat)).inner,
        pos := (newBufWriter (([], 0) : List Nat × Nat)).pos
          + (List.replicate DEFAULT_BUF_SIZE (0:Nat)).length,
        buf := setRange (newBufWriter (([], 0) : List Nat × Nat)).buf
          (newBufWriter (([], 0) : List Nat × Nat)).pos (List.replicate DEFAULT_BUF_SIZE 0) }
      (by simp [newBufWriter]) (by
        rw [setRange_length _ _ _ (by simp [newBufWriter])]
        simp [newBufWriter])
    rw [h1]
    simp [newBufWriter]

lemma length_le_flat (cs : List (List Nat)) (c : List Nat) (hc : c ∈ cs) :
    c.length ≤ (flat cs).length := by
  induction cs with
  | nil => cases hc
  | cons d rest ih =>
    rw [flat_cons]
    rcases List.mem_cons.mp hc with rfl | hmem
    · simp
    · have := ih hmem
      simp only [List.length_append]
      omega

lemma full_formula (m : Nat) : (DEFAULT_BUF_SIZE * m - 1) / DEFAULT_BUF_SIZE = m - 1 := by
  cases m with
  | zero => decide
  | succ m =>
    have h1 : DEFAULT_BUF_SIZE * (m + 1) - 1 = (DEFAULT_BUF_SIZE - 1) + m * DEFAULT_BUF_SIZE := by
      unfold DEFAULT_BUF_SIZE
      omega
    rw [h1, Nat.add_mul_div_right _ _ (show 0 < DEFAULT_BUF_SIZE by decide)]
    unfold DEFAULT_BUF_SIZE
    omega

/-- C4: if the downstream `write_all` fails during `flush_buf`, the
error is propagated and `pos`, the buffer contents, and hence the
pending bytes `buf[0..pos]` are unchanged — a retry submits exactly the
same bytes; if `write_all` succeeds, `pos` is reset to 0. -/
theorem c4_flush_buf_failure_preserves_state (σ ε : Type) (W : WSpec σ ε)
    (w : BufWriter σ) (hp : 0 < w.pos) :
    (∀ i2 e, W.write_all w.inner (w.buf.take w.pos) = (i2, Except.error e) →
      flush_buf W w = ({ w with inner := i2 }, Except.error e) ∧
      (flush_buf W w).1.pos = w.pos ∧ (flush_buf W w).1.buf = w.buf ∧
      (flush_buf W w).1.pending = w.pending) ∧
    (∀ i2, W.write_all w.inner (w.buf.take w.pos) = (i2, Except.ok ()) →
      flush_buf W w = ({ w with inner := i2, pos := 0 }, Except.ok ())) := by
  constructor
  · intro i2 e he
    unfold flush_buf
    simp [hp, he, BufWriter.pending]
  · intro i2 he
    unfold flush_buf
    simp [hp, he]

/-- Witness for `c4_flush_buf_failure_preserves_state`: a concrete
2-byte buffered state over the always-failing sink. -/
theorem c4_flush_buf_failure_preserves_state_witness :
    0 < ({ inner := 0, pos := 2, buf := [5, 6, 7] } : BufWriter Nat).pos ∧
    errSpec.write_all 0 [5, 6] = (1, Except.error ()) ∧
    flush_buf errSpec { inner := 0, pos := 2, buf := [5, 6, 7] }
      = ({ inner := 1, pos := 2, buf := [5, 6, 7] }, Except.error ()) :=
  ⟨by decide, rfl,
   ((c4_flush_buf_failure_preserves_state Nat Unit errSpec
      { inner := 0, pos := 2, buf := [5, 6, 7] } (by decide)).1 1 () rfl).1⟩

/-- C5: `write` flushes first exactly when the slice exceeds the spare
capacity `1024 - pos` (the sink receives the pending bytes exactly in
that case and `pos` is then 0), and copies
`min (b.length) (spare capacity after the possible flush)` bytes of `b`
into the buffer at the (possibly reset) position, advancing `pos` by
that count and returning it. -/
theorem c5_write_flushes_then_copies (w : BufWriter (List Nat × Nat)) (b : List Nat)
    ( _hpos : w.pos ≤ DEFAULT_BUF_SIZE) :
    write okSpec w b =
      (let pf := if DEFAULT_BUF_SIZE - w.pos < b.length then 0 else w.pos
       let wr := min b.length (DEFAULT_BUF_SIZE - pf)
       ({ inner := if DEFAULT_BUF_SIZE - w.pos < b.length ∧ 0 < w.pos
                   then (w.inner.1 ++ w.buf.take w.pos, w.inner.2 + 1) else w.inner,
          pos := pf + wr,
          buf := setRange w.buf pf (b.take wr) }, Except.ok wr)) := by
  by_cases hsp : DEFAULT_BUF_SIZE - w.pos < b.length
  · by_cases hz : 0 < w.pos
    · unfold write flush_buf BufWriter.spare_capacity
      simp only [if_pos hsp, if_pos hz, okSpec]
      simp [hsp, hz]
    · have hz0 : w.pos = 0 := by omega
      unfold write flush_buf BufWriter.spare_capacity
      simp only [if_pos hsp, if_neg hz]
      simp [hsp, hz, hz0]
  · unfold write flush_buf BufWriter.spare_capacity
    simp only [if_neg hsp]
    simp [hsp]

/-- Witness for `c5_write_flushes_then_copies`: a 2-byte write into a
partially filled buffer (no flush needed). -/
theorem c5_write_flushes_then_copies_witness :
    ({ inner := ([], 0), pos := 2, buf := [1, 2, 3, 4] }
      : BufWriter (List Nat × Nat)).pos ≤ DEFAULT_BUF_SIZE ∧
    write okSpec { inner := ([], 0), pos := 2, buf := [1, 2, 3, 4] } [9, 9]
      = ({ inner := ([], 0), pos := 4, buf := [1, 2, 9, 9] }, Except.ok 2) :=
  ⟨by decide,
   (c5_write_flushes_then_copies { inner := ([], 0), pos := 2, buf := [1, 2, 3, 4] }
      [9, 9] (by decide)).trans (by rfl)⟩

/-- C6 counterexample: the chunking [[7], 1024 bytes, [9]] of a stream
of L = 1026 bytes triggers 2 flushes that reach the sink, while the
claim's formula floor((L-1)/1024) gives 1 — the middle chunk forces an
early flush of a 1-byte buffer, so the flush count depends on the
chunking, refuting "for every way of chunking". -/
theorem c6_counterexample_chunking :
    (runChunks [[7], List.replicate 1024 3, [9]]).1.inner.2 = 2 ∧
    ((flat [[7], List.replicate 1024 3, [9]]).length - 1) / DEFAULT_BUF_SIZE = 1 ∧
    (2 : Nat) ≠ 1 := by
  refine ⟨by decide, by decide, by decide⟩

/-- C6 amended: for every chunking into chunks of at most 1024 bytes,
all writes succeed and the number of internal flushes reaching the sink
is at least floor((L-1)/1024) — with equality attained, e.g., by
chunkings into full 1024-byte chunks — and is 0 when L = 0; moreover
after every prefix of the chunk sequence the bytes received downstream
followed by the buffered bytes equal exactly the bytes written so far
(so each flush submits precisely the bytes written since the previous
flush). -/
theorem c6_chunked_write_flush_count (cs : List (List Nat))
    (h : ∀ c ∈ cs, c.length ≤ DEFAULT_BUF_SIZE) :
    (runChunks cs).2 = Except.ok () ∧
    ((flat cs).length - 1) / DEFAULT_BUF_SIZE ≤ (runChunks cs).1.inner.2 ∧
    ((flat cs).length = 0 → (runChunks cs).1.inner.2 = 0) ∧
    (∀ i, (runChunks (cs.take i)).1.inner.1
        ++ (runChunks (cs.take i)).1.buf.take (runChunks (cs.take i)).1.pos
        = flat (cs.take i)) ∧
    (∀ m, (runChunks (List.replicate m (List.replicate DEFAULT_BUF_SIZE 0))).1.inner.2
        = (DEFAULT_BUF_SIZE * m - 1) / DEFAULT_BUF_SIZE) := by
  refine ⟨(runChunks_inv cs h).1, runChunks_flush_lb cs h, runChunks_zero cs h, ?_, ?_⟩
  · intro i
    have hsub : ∀ c ∈ cs.take i, c.length ≤ DEFAULT_BUF_SIZE :=
      fun c hc => h c (List.take_subset i cs hc)
    exact (runChunks_inv (cs.take i) hsub).2.2.2.1
  · intro m
    rw [full_formula m]
    exact full_chunks_exact m

/-- Witness for `c6_chunked_write_flush_count` at the chunking
[[1], [2, 3]]. -/
theorem c6_chunked_write_flush_count_witness :
    (∀ c ∈ [[1], [2, 3]], c.length ≤ DEFAULT_BUF_SIZE) ∧
    ((runChunks [[1], [2, 3]]).2 = Except.ok () ∧
     ((flat [[1], [2, 3]]).length - 1) / DEFAULT_BUF_SIZE
       ≤ (runChunks [[1], [2, 3]]).1.inner.2 ∧
     ((flat [[1], [2, 3]]).length = 0 → (runChunks [[1], [2, 3]]).1.inner.2 = 0) ∧
     (∀ i, (runChunks ([[1], [2, 3]].take i)).1.inner.1
         ++ (runChunks ([[1], [2, 3]].take i)).1.buf.take
              (runChunks ([[1], [2, 3]].take i)).1.pos
         = flat ([[1], [2, 3]].take i)) ∧
     (∀ m, (runChunks (List.replicate m (List.replicate DEFAULT_BUF_SIZE 0))).1.inner.2
         = (DEFAULT_BUF_SIZE * m - 1) / DEFAULT_BUF_SIZE)) :=
  ⟨by decide, c6_chunked_write_flush_count [[1], [2, 3]] (by decide)⟩

/-- C8: for writes totalling fewer than 1024 bytes over a succeeding
sink, `into_inner` returns the sink having received exactly the written
bytes, delivered by exactly one `write_all` call (zero if nothing was
written) — the destructor's flush is suppressed, so nothing is
submitted twice. -/
theorem c8_into_inner_flush_once (cs : List (List Nat))
    (hsum : (flat cs).length < DEFAULT_BUF_SIZE) :
    into_inner okSpec (runChunks cs).1 =
      Except.ok (flat cs, if (flat cs).length = 0 then 0 else 1) := by
  have hall : ∀ c ∈ cs, c.length ≤ DEFAULT_BUF_SIZE :=
    fun c hc => le_trans (length_le_flat cs c hc) (le_of_lt hsum)
  obtain ⟨-, hpos, hbuf, hcontent, hkb, hkr, hfl⟩ := runChunks_inv cs hall
  set w := (runChunks cs).1 with hwdef
  have hk0 : w.inner.2 = 0 := by
    by_contra hne
    have h2 := hfl (by omega)
    unfold DEFAULT_BUF_SIZE at h2 hsum
    omega
  have hrecnil : w.inner.1 = [] := by
    have h3 : w.inner.1.length ≤ DEFAULT_BUF_SIZE * w.inner.2 := hkb
    rw [hk0, Nat.mul_zero, Nat.le_zero] at h3
    exact List.length_eq_zero.mp h3
  have hcontent2 : w.buf.take w.pos = flat cs := by
    rw [hrecnil] at hcontent
    simpa using hcontent
  have hinner : w.inner = ([], 0) := by
    rcases hi : w.inner with ⟨a, b⟩
    rw [hi] at hk0 hrecnil
    simp at hk0 hrecnil
    simp [hk0, hrecnil]
  unfold into_inner flush_buf
  by_cases hz : 0 < w.pos
  · simp only [if_pos hz, okSpec, hinner, hcontent2]
    have hne : (flat cs).length ≠ 0 := by
      have : w.pos ≤ (flat cs).length := by
        rw [← hcontent2]
        simp only [List.length_take]
        omega
      omega
    simp [hne]
  · have hp0 : w.pos = 0 := by omega
    have hnil : flat cs = [] := by
      rw [← hcontent2, hp0]
      simp
    simp [hz, hinner, hnil]

/-- Witness for `c8_into_inner_flush_once`: two writes of 2 + 1 bytes,
then `into_inner` hands back the sink holding exactly those 3 bytes via
a single `write_all` call. -/
theorem c8_into_inner_flush_once_witness :
    (flat [[1, 2], [3]]).length < DEFAULT_BUF_SIZE ∧
    into_inner okSpec (runChunks [[1, 2], [3]]).1 = Except.ok ([1, 2, 3], 1) :=
  ⟨by decide,
   (c8_into_inner_flush_once [[1, 2], [3]] (by decide)).trans (by rfl)⟩

/-- C9: starting from any state with `pos ≤ 1024`, each of `flush_buf`,
`write`, `flush` and `skip_some` leaves `pos ≤ 1024` (`pos ≥ 0` holds
by the ℕ model, as `pos: usize` in the source), whatever the downstream
sink does. -/
theorem c9_pos_within_capacity (σ ε : Type) (W : WSpec σ ε) (w : BufWriter σ)
    (h : w.pos ≤ DEFAULT_BUF_SIZE) (b : List Nat) (len : Nat) :
    (flush_buf W w).1.pos ≤ DEFAULT_BUF_SIZE ∧
    (write W w b).1.pos ≤ DEFAULT_BUF_SIZE ∧
    (flush W w).1.pos ≤ DEFAULT_BUF_SIZE ∧
    (skip_some W w len).1.pos ≤ DEFAULT_BUF_SIZE := by
  have hfb : (flush_buf W w).1.pos = w.pos ∨ (flush_buf W w).1.pos = 0 := by
    unfold flush_buf
    split
    · rcases hw : W.write_all w.inner (w.buf.take w.pos) with ⟨i2, r⟩
      cases r <;> simp
    · simp
  have hfb_le : (flush_buf W w).1.pos ≤ DEFAULT_BUF_SIZE := by
    rcases hfb with h1 | h1 <;> omega
  refine ⟨hfb_le, ?_, ?_, ?_⟩
  · unfold write
    split
    · next w2 e heq =>
      by_cases hsp : w.spare_capacity < b.length
      · simp only [if_pos hsp] at heq
        have : w2 = (flush_buf W w).1 := by rw [heq]
        rw [this]
        exact hfb_le
      · simp only [if_neg hsp] at heq
        cases heq
    · next w2 u heq =>
      by_cases hsp : w.spare_capacity < b.length
      · simp only [if_pos hsp] at heq
        have hw2 : w2 = (flush_buf W w).1 := by rw [heq]
        subst hw2
        simp only [BufWriter.spare_capacity]
        unfold DEFAULT_BUF_SIZE at *
        omega
      · simp only [if_neg hsp] at heq
        cases heq
        simp only [BufWriter.spare_capacity]
        unfold DEFAULT_BUF_SIZE at *
        omega
  · unfold flush
    split
    · next w2 e heq =>
      have : w2 = (flush_buf W w).1 := by rw [heq]
      subst this
      exact hfb_le
    · next w2 u heq =>
      have : w2 = (flush_buf W w).1 := by rw [heq]
      subst this
      simpa using hfb_le
  · unfold skip_some
    split
    · split
      · next w2 e heq =>
        have : w2 = (flush_buf W w).1 := by rw [heq]
        subst this
        exact hfb_le
      · next w2 u heq =>
        have : w2 = (flush_buf W w).1 := by rw [heq]
        subst this
        simp only [BufWriter.spare_capacity]
        unfold DEFAULT_BUF_SIZE at *
        omega
    · simp only [BufWriter.spare_capacity]
      unfold DEFAULT_BUF_SIZE at *
      omega

/-- Witness for `c9_pos_within_capacity` at a fresh writer over the
recording sink. -/
theorem c9_pos_within_capacity_witness :
    (newBufWriter (([], 0) : List Nat × Nat)).pos ≤ DEFAULT_BUF_SIZE ∧
    ((flush_buf okSpec (newBufWriter ([], 0))).1.pos ≤ DEFAULT_BUF_SIZE ∧
     (write okSpec (newBufWriter ([], 0)) [1, 2]).1.pos ≤ DEFAULT_BUF_SIZE ∧
     (flush okSpec (newBufWriter ([], 0))).1.pos ≤ DEFAULT_BUF_SIZE ∧
     (skip_some okSpec (newBufWriter ([], 0)) 5).1.pos ≤ DEFAULT_BUF_SIZE) :=
  ⟨by decide,
   c9_pos_within_capacity (List Nat × Nat) Unit okSpec (newBufWriter ([], 0))
     (by decide) [1, 2] 5⟩

/-! ### Buf/BufMut transfer (src/buf.rs) -/

/-- The `fill_with` loop of `BufMut::put` (src/buf.rs lines 57–93)
instantiated at the slice-backed `Buf`/`BufMut`: `B`/`cur` model the
destination region and its cursor, `A`/`acur` the source and its
cursor.  Modelled from the spec: the slice adapters themselves
(`chunk`, `chunk_mut`, `advance`: view of the whole remaining bytes of
a contiguous slice, cursor advance by re-slicing) are declared via a
different trait surface in src/impls.rs, so they are taken from §4.1 of
the specification and the crate's own `test_buf`/`test_put` tests.
Each iteration views the whole remaining destination (`chunk_mut`) and
source (`chunk`), the transfer function copies `cnt = min` bytes and
advances the source, the loop advances the destination and accumulates
`cnt`; it stops when the destination chunk is empty or the transfer
function reports 0.  Returns (destination region, destination cursor,
source cursor, transferred count). -/
def sput (B A : List Nat) (cur acur : Nat) : List Nat × Nat × Nat × Nat :=
  if B.length - cur = 0 then (B, cur, acur, 0)
  else if min (A.length - acur) (B.length - cur) = 0 then (B, cur, acur, 0)
  else
    let r := sput (setRange B cur ((A.drop acur).take (min (A.length - acur) (B.length - cur))))
      A (cur + min (A.length - acur) (B.length - cur))
      (acur + min (A.length - acur) (B.length - cur))
    (r.1, r.2.1, r.2.2.1, min (A.length - acur) (B.length - cur) + r.2.2.2)
termination_by B.length - cur
decreasing_by
  have hlen : ((A.drop acur).take (min (A.length - acur) (B.length - cur))).length
      = min (A.length - acur) (B.length - cur) := by
    simp only [List.length_take, List.length_drop]
    omega
  rw [setRange_length _ _ _ (by rw [hlen]; omega)]
  omega

lemma sput_stop (B A : List Nat) (cur acur : Nat)
    (h : B.length - cur = 0 ∨ min (A.length - acur) (B.length - cur) = 0) :
    sput B A cur acur = (B, cur, acur, 0) := by
  rcases h with h | h
  · rw [sput]
    simp [h]
  · rw [sput]
    split
    · rfl
    · simp [h]

/-- C7: `put` from a slice source into a slice destination transfers
exactly `min (remaining A) (remaining B)` bytes, returns that count,
advances both cursors by exactly that amount, writes the corresponding
ordered bytes of A at the front of B, and makes forward progress
whenever both sides have bytes remaining. -/
theorem c7_put_transfers_min (A B : List Nat) :
    (sput B A 0 0 =
      (A.take (min A.length B.length) ++ B.drop (min A.length B.length),
       min A.length B.length, min A.length B.length, min A.length B.length)) ∧
    (0 < A.length → 0 < B.length → 0 < min A.length B.length) := by
  constructor
  · set m := min A.length B.length with hm
    rcases Nat.eq_zero_or_pos m with hz | hpos
    · have := sput_stop B A 0 0 (by omega)
      rw [this, hz]
      simp
    · have hB : ¬ (B.length - 0 = 0) := by omega
      have hcnt : ¬ (min (A.length - 0) (B.length - 0) = 0) := by omega
      rw [sput]
      simp only [Nat.sub_zero, List.drop_zero, Nat.zero_add] at hB hcnt ⊢
      rw [if_neg hB, if_neg hcnt]
      have hmA : m ≤ A.length := by omega
      have hB2 : setRange B 0 (A.take m) = A.take m ++ B.drop m := by
        unfold setRange
        simp [List.length_take, min_eq_left hmA]
      rw [← hm, hB2]
      have hlen2 : (A.take m ++ B.drop m).length = B.length := by
        simp only [List.length_append, List.length_take, List.length_drop]
        omega
      have hrec : sput (A.take m ++ B.drop m) A m m = (A.take m ++ B.drop m, m, m, 0) := by
        apply sput_stop
        rw [hlen2]
        omega
      rw [hrec]
      simp
  · intro h1 h2
    omega

/-- Witness for `c7_put_transfers_min`: the crate's own `test_put`
shape — a 3-byte source into a 2-byte destination copies 2 bytes. -/
theorem c7_put_transfers_min_witness :
    sput [4, 5] [1, 2, 3] 0 0 = ([1, 2], 2, 2, 2) ∧
    (0 < ([1, 2, 3] : List Nat).length ∧ 0 < ([4, 5] : List Nat).length ∧
     0 < min ([1, 2, 3] : List Nat).length ([4, 5] : List Nat).length) :=
  ⟨(c7_put_transfers_min [1, 2, 3] [4, 5]).1.trans (by rfl),
   by decide, by decide,
   (c7_put_transfers_min [1, 2, 3] [4, 5]).2 (by decide) (by decide)⟩

/-! ### Slice Read (src/impls.rs) -/

/-- `read_exact` for `&[u8]` (src/impls.rs lines 31–49): returns
(new source remainder, destination contents, success flag).  The early
bail happens before any mutation, so both are returned unchanged on
failure; otherwise `amt = d.length` bytes are copied (with the
single-byte special path of the source kept) and the source is
re-sliced past them. -/
def readExactSlice (s d : List Nat) : List Nat × List Nat × Bool :=
  if s.length < d.length then (s, d, false)
  else
    let amt := d.length
    let a := s.take amt
    let b := s.drop amt
    let d2 := if amt = 1 then d.set 0 (a.getD 0 0) else a
    (b, d2, true)

/-- C10: `read_exact` on a slice is atomic on failure — when the
destination is longer than the source it fails leaving source cursor
and destination contents unchanged; otherwise it copies exactly
`d.length` bytes, advances the source by that amount, and succeeds. -/
theorem c10_read_exact_atomic (s d : List Nat) :
    (s.length < d.length → readExactSlice s d = (s, d, false)) ∧
    (d.length ≤ s.length →
      readExactSlice s d = (s.drop d.length, s.take d.length, true)) := by
  constructor
  · intro h
    unfold readExactSlice
    rw [if_pos h]
  · intro h
    unfold readExactSlice
    rw [if_neg (by omega)]
    simp only
    by_cases h1 : d.length = 1
    · rw [if_pos h1]
      rcases d with _ | ⟨x, d2⟩
      · simp at h1
      · rcases s with _ | ⟨y, s2⟩
        · simp at h
        · simp only [List.length_cons, Nat.add_left_eq_self, List.length_eq_zero] at h1
          subst h1
          simp [List.getD]
    · rw [if_neg h1]

/-- Witness for `c10_read_exact_atomic`: success on a 2-byte read from
a 3-byte source, failure (unchanged state) on a 2-byte read from a
1-byte source. -/
theorem c10_read_exact_atomic_witness :
    (([9, 9] : List Nat).length ≤ ([1, 2, 3] : List Nat).length ∧
     readExactSlice [1, 2, 3] [9, 9] = ([3], [1, 2], true)) ∧
    (([1] : List Nat).length < ([9, 9] : List Nat).length ∧
     readExactSlice [1] [9, 9] = ([1], [9, 9], false)) :=
  ⟨⟨by decide, (c10_read_exact_atomic [1, 2, 3] [9, 9]).2 (by decide)⟩,
   ⟨by decide, (c10_read_exact_atomic [1] [9, 9]).1 (by decide)⟩⟩

end Axio
